import Mathlib

/-!
Shallow embedding of the ytmp3 downloader (`src/main.py`) and verification of
its specification claims.  Strings are modelled as `List Char`; Python string
operations (`in`, `split`, `strip`, `replace`, slicing) are embedded as
executable functions on character lists.
-/

namespace YtMp3

/-- Strings, modelled as lists of characters. -/
abbrev Str := List Char

/-- Coerce a Lean string literal to the character-list model. -/
def ofStr (s : String) : Str := s.data

/-- `startsB n h` : does `h` start with `n`?  (Python `h.startswith(n)`.) -/
def startsB : Str → Str → Bool
  | [], _ => true
  | _ :: _, [] => false
  | a :: as, b :: bs => a == b && startsB as bs

/-- `subB n h` : is `n` a contiguous substring of `h`?  (Python `n in h`.)
The empty string is a substring of everything, as in Python. -/
def subB (n : Str) : Str → Bool
  | [] => n.isEmpty
  | b :: bs => startsB n (b :: bs) || subB n bs

/-- ASCII whitespace, as recognised by Python `str.split()` with no
arguments. -/
def isWs (c : Char) : Bool :=
  c == ' ' || c == '\t' || c == '\n' || c == '\r' || c == '\x0b' || c == '\x0c'

/-- Accumulator-passing worker for `splitWs`; `cur` holds the current token
reversed. -/
def splitWsAux (cur : Str) : Str → List Str
  | [] => if cur.isEmpty then [] else [cur.reverse]
  | c :: t =>
    if isWs c then
      if cur.isEmpty then splitWsAux [] t else cur.reverse :: splitWsAux [] t
    else splitWsAux (c :: cur) t

/-- Python `s.split()` : split on runs of whitespace, dropping empty tokens. -/
def splitWs (s : Str) : List Str := splitWsAux [] s

/-- Line 124/125 of `main.py`: `s.lower().replace(" ", "")` — lower-case and
delete every space character (only `' '`, exactly as the source does). -/
def cleanName (s : Str) : Str :=
  (s.map Char.toLower).filter (fun c => !(c == ' '))

/-- The literal separator `" - "` used throughout `main.py`. -/
def sepStr : Str := ofStr " - "

/-- Lines 128–131 of `main.py`: the fuzzy artist-in-title check.
`clean_artist in clean_title or any(part in clean_title for part in
clean_artist.split())`. -/
def artist_in_title (title artist : Str) : Bool :=
  let ct := cleanName title
  let ca := cleanName artist
  subB ca ct || (splitWs ca).any (fun p => subB p ct)

/-- Lines 133–139 of `main.py`: choice of the un-sanitized base name. -/
def derive_base_name (title artist : Str) : Str :=
  if subB sepStr title && !(artist_in_title title artist) then
    artist ++ sepStr ++ title
  else if artist_in_title title artist then title
  else artist ++ sepStr ++ title

theorem subB_nil_left (h : Str) : subB [] h = true := by
  cases h <;> simp [subB, startsB]

/-- C1: `derive_base_name` follows the claimed case analysis: with
`artist_in_title` computed as (normalized-artist substring of normalized
title, or some whitespace token of the normalized artist a substring of the
normalized title), a raw title containing `" - "` with `artist_in_title`
false yields `"{artist} - {title}"`; otherwise `artist_in_title` true yields
the bare title and `artist_in_title` false yields `"{artist} - {title}"`;
and an empty artist makes `artist_in_title` true, so the base name is the
bare title. -/
theorem c1_derive_base_name_cases (title artist : Str) :
    (artist_in_title title artist =
      (subB (cleanName artist) (cleanName title) ||
        (splitWs (cleanName artist)).any (fun p => subB p (cleanName title)))) ∧
    (subB sepStr title = true → artist_in_title title artist = false →
      derive_base_name title artist = artist ++ sepStr ++ title) ∧
    (artist_in_title title artist = true →
      derive_base_name title artist = title) ∧
    (artist_in_title title artist = false →
      derive_base_name title artist = artist ++ sepStr ++ title) ∧
    (artist = [] →
      artist_in_title title artist = true ∧
        derive_base_name title artist = title) := by
  refine ⟨rfl, ?_, ?_, ?_, ?_⟩
  · intro hs ha
    simp [derive_base_name, hs, ha]
  · intro ha
    simp [derive_base_name, ha]
  · intro ha
    cases hs : subB sepStr title <;> simp [derive_base_name, ha, hs]
  · intro h
    subst h
    have hait : artist_in_title title [] = true := by
      simp [artist_in_title, cleanName, subB_nil_left]
    exact ⟨hait, by simp [derive_base_name, hait]⟩

/-- Witness for C1: concrete instance with the artist absent from the title,
so the derived base name prepends the artist. -/
theorem c1_witness :
    derive_base_name (ofStr "Believer") (ofStr "Imagine Dragons") =
      ofStr "Imagine Dragons" ++ sepStr ++ ofStr "Believer" :=
  (c1_derive_base_name_cases (ofStr "Believer")
    (ofStr "Imagine Dragons")).2.2.2.1 (by decide)

/-- The metadata fields read from the probe dictionary (`info.get(...)`) in
lines 104–110 of `main.py`.  A missing-or-falsy Python string field is
modelled as the empty list, matching the `info.get(key, '')` default. -/
structure ProbeInfo where
  uploader : Str
  artistField : Str
  title : Str
  albumField : Str
  playlist_title : Str
  release_year : Str
  upload_date : Str
  genreField : Str
  categories : List Str
  description : Str
  thumbnail : Str

/-- Line 104: `info.get('uploader', '') or info.get('artist', '')`. -/
def resolveArtist (i : ProbeInfo) : Str :=
  if i.uploader ≠ [] then i.uploader else i.artistField

/-- Line 106: `info.get('album', '') or info.get('playlist_title', '') or
'YouTube Music'`. -/
def resolveAlbum (i : ProbeInfo) : Str :=
  if i.albumField ≠ [] then i.albumField
  else if i.playlist_title ≠ [] then i.playlist_title
  else ofStr "YouTube Music"

/-- Line 107: `info.get('release_year', '') or info.get('upload_date', '')[:4]
if info.get('upload_date', '') else ''`.  Python parses this as
`(release_year or upload_date[:4]) if upload_date else ''` — the conditional
expression binds looser than `or` — so with an absent upload date the whole
expression is `''` even when `release_year` is set. -/
def resolveYear (i : ProbeInfo) : Str :=
  if i.upload_date ≠ [] then
    (if i.release_year ≠ [] then i.release_year else i.upload_date.take 4)
  else []

/-- Line 108, parsed with the same Python precedence:
`(genre or categories[0]) if categories else 'Music'`. -/
def resolveGenre (i : ProbeInfo) : Str :=
  if i.categories ≠ [] then
    (if i.genreField ≠ [] then i.genreField
     else i.categories.headD (ofStr "Music"))
  else ofStr "Music"

/-- Lines 113–121: the metadata record assembled for the tag writer. -/
structure MetadataRecord where
  title : Str
  artist : Str
  album : Str
  year : Str
  genre : Str
  comment : Str
  thumbnail_url : Str

/-- Lines 104–121: assembling the `MetadataRecord` from the probe
dictionary (`description[:250] if description else ''` for the comment). -/
def buildMetadata (i : ProbeInfo) : MetadataRecord :=
  { title := i.title
  , artist := resolveArtist i
  , album := resolveAlbum i
  , year := resolveYear i
  , genre := resolveGenre i
  , comment := if i.description ≠ [] then i.description.take 250 else []
  , thumbnail_url := i.thumbnail }

/-- A concrete probe result reused by the concrete-input theorems below. -/
def infoDefault : ProbeInfo :=
  { uploader := ofStr "Some Uploader"
  , artistField := []
  , title := ofStr "Some Title"
  , albumField := []
  , playlist_title := []
  , release_year := []
  , upload_date := ofStr "20200101"
  , genreField := []
  , categories := []
  , description := []
  , thumbnail := [] }

/-- Probe result with an explicit release year but no upload date. -/
def infoC3 : ProbeInfo :=
  { infoDefault with release_year := ofStr "1999", upload_date := [] }

/-- C3: the spec's fallback chain (explicit year → first four characters of
the upload date → empty) requires the year to be "1999" here, but line 107's
expression evaluates to the empty string at a probe whose explicit release
year is "1999" and whose upload date is absent: in Python the conditional
expression binds looser than `or`, so the explicit year is discarded
whenever the upload date is missing. -/
theorem c3_release_year_precedence_bug :
    infoC3.release_year = ofStr "1999" ∧ infoC3.upload_date = [] ∧
    (buildMetadata infoC3).year = [] ∧
    (buildMetadata infoC3).year ≠ infoC3.release_year := by decide

/-- Probe result with neither an album nor a playlist title. -/
def infoC4 : ProbeInfo := infoDefault

/-- C4 counterexample: with the explicit album and the playlist title both
absent, the assembled record's album is the constant "YouTube Music", not
"Unknown Music Collection" as claimed. -/
theorem c4_album_constant_counterexample :
    infoC4.albumField = [] ∧ infoC4.playlist_title = [] ∧
    (buildMetadata infoC4).album = ofStr "YouTube Music" ∧
    (buildMetadata infoC4).album ≠ ofStr "Unknown Music Collection" := by decide

/-- C4 (amended): the record's album is resolved by the fallback chain
explicit album → playlist title → the constant "YouTube Music". -/
theorem c4_album_fallback (i : ProbeInfo) :
    (i.albumField ≠ [] → (buildMetadata i).album = i.albumField) ∧
    (i.albumField = [] → i.playlist_title ≠ [] →
      (buildMetadata i).album = i.playlist_title) ∧
    (i.albumField = [] → i.playlist_title = [] →
      (buildMetadata i).album = ofStr "YouTube Music") := by
  refine ⟨?_, ?_, ?_⟩
  · intro h
    simp [buildMetadata, resolveAlbum, h]
  · intro h h'
    simp [buildMetadata, resolveAlbum, h, h']
  · intro h h'
    simp [buildMetadata, resolveAlbum, h, h']

/-- Witness for C4: a record with an explicit album keeps it. -/
theorem c4_witness :
    (buildMetadata { infoDefault with albumField := ofStr "Greatest Hits" }).album =
      ofStr "Greatest Hits" :=
  (c4_album_fallback { infoDefault with albumField := ofStr "Greatest Hits" }).1
    (by decide)

/-- The three effectful stages of `download_youtube_audio` (lines 99–181) as
oracles: the metadata probe `ydl.extract_info` (lines 100–101, may raise),
the download/transcode `ydl.download` (line 168, may raise), and the tag
write `set_mp3_metadata` (line 175, returns a boolean and never raises,
since it catches its own exceptions). -/
structure ItemRun where
  probe : Except Str ProbeInfo
  transcode : Except Str Unit
  tagWrite : Bool

/-- `download_youtube_audio` (lines 99–181): the probe and the name
derivation run before the `try` block, so a probe exception propagates to
the caller; inside the `try`, a transcode exception is caught and turned
into a `False` return (lines 179–181); the tag write's boolean result is
ignored (line 175) and `True` is returned (line 178).  A `.error e` result
models an exception escaping the function. -/
def download_youtube_audio (r : ItemRun) : Except Str Bool :=
  match r.probe with
  | .error e => .error e
  | .ok _ =>
    match r.transcode with
    | .error _ => .ok false
    | .ok _ => .ok true

/-- A run whose metadata probe raises. -/
def runProbeFail : ItemRun :=
  { probe := .error (ofStr "extract_info failed")
  , transcode := .ok ()
  , tagWrite := true }

/-- C2 counterexample: an exception in the metadata-probe step is not caught
inside `download_youtube_audio` and not converted to a `false` return — it
escapes the function. -/
theorem c2_probe_exception_escapes :
    download_youtube_audio runProbeFail = .error (ofStr "extract_info failed") ∧
    download_youtube_audio runProbeFail ≠ .ok false :=
  ⟨rfl, fun h => Except.noConfusion h⟩

/-- C2 (amended): an exception in the download/transcode step is caught and
converted to a `false` return, and a completed transcode yields `true`; but
an exception in the metadata-probe step propagates out of
`download_youtube_audio` to the caller (where the playlist loop's
surrounding handler aborts the remaining items). -/
theorem c2_exception_handling (i : ProbeInfo) (e e' : Str) (w w' w'' : Bool)
    (t : Except Str Unit) :
    download_youtube_audio ⟨.ok i, .error e, w⟩ = .ok false ∧
    download_youtube_audio ⟨.ok i, .ok (), w'⟩ = .ok true ∧
    download_youtube_audio ⟨.error e', t, w''⟩ = .error e' :=
  ⟨rfl, rfl, rfl⟩

/-- A run whose transcode succeeds but whose tag write reports failure. -/
def runTagFail : ItemRun :=
  { probe := .ok infoDefault
  , transcode := .ok ()
  , tagWrite := false }

/-- C5 counterexample: the transcode succeeded and `set_mp3_metadata`
returned `False`, yet `download_youtube_audio` returns `True`: line 175
ignores the writer's boolean result. -/
theorem c5_tag_write_failure_not_counted :
    runTagFail.tagWrite = false ∧
    download_youtube_audio runTagFail = .ok true :=
  ⟨rfl, rfl⟩

/-- C5 (amended): whenever the probe and the transcode succeed,
`download_youtube_audio` returns `true` regardless of the tag write's
boolean result; a failed metadata write is not counted as a failed item. -/
theorem c5_success_ignores_tag_write (i : ProbeInfo) (w : Bool) :
    download_youtube_audio ⟨.ok i, .ok (), w⟩ = .ok true := rfl

/-- A playlist entry as inspected by the loop in lines 219–233 of `main.py`:
`None` (failed flat extraction), a dict carrying a `url`, a dict carrying
only an `id`, or a dict with neither. -/
inductive Entry where
  | null : Entry
  | withUrl : Str → Entry
  | withId : Str → Entry
  | bare : Entry

/-- Lines 224–233: resolve a playable URL from an entry; `none` models the
`continue` paths (a `None` entry, or a dict with neither `url` nor `id`). -/
def entryUrl : Entry → Option Str
  | .null => none
  | .bare => none
  | .withUrl u =>
      some (if startsB (ofStr "http") u then u
            else ofStr "https://www.youtube.com/watch?v=" ++ u)
  | .withId v => some (ofStr "https://www.youtube.com/watch?v=" ++ v)

/-- Lines 217–241: the per-entry loop threading the `successful` counter.
`dl u` models the call `download_youtube_audio(u, playlist_path)`; an
exception raised by it propagates out of the loop (the loop body has no
handler of its own). -/
def playlistLoop (dl : Str → Except Str Bool) : List Entry → Nat → Except Str Nat
  | [], succ => .ok succ
  | e :: rest, succ =>
    match entryUrl e with
    | none => playlistLoop dl rest succ
    | some u =>
      match dl u with
      | .error err => .error err
      | .ok true => playlistLoop dl rest (succ + 1)
      | .ok false => playlistLoop dl rest succ

/-- Lines 198–248, after a successful enumeration of `entries`: run the loop
from a zero counter and return `successful > 0` (line 244); the surrounding
`except` (lines 246–248) turns an exception escaping the loop into a `False`
return for the whole playlist. -/
def download_youtube_playlist (dl : Str → Except Str Bool) (entries : List Entry) :
    Bool :=
  match playlistLoop dl entries 0 with
  | .ok succ => decide (0 < succ)
  | .error _ => false

/-- A download oracle where the first URL succeeds and every other raises. -/
def dlC6 : Str → Except Str Bool := fun u =>
  if u = ofStr "https://a" then .ok true else .error (ofStr "probe exception")

/-- A two-entry playlist exercising `dlC6`. -/
def entriesC6 : List Entry :=
  [Entry.withUrl (ofStr "https://a"), Entry.withUrl (ofStr "https://b")]

/-- C6 counterexample: the first entry's download succeeded, but the second
entry's download raised (as an uncaught metadata-probe failure does); the
escaping exception reaches the playlist-level handler, so
`download_youtube_playlist` returns `false` even though at least one entry's
download succeeded. -/
theorem c6_exception_masks_success :
    dlC6 (ofStr "https://a") = .ok true ∧
    download_youtube_playlist dlC6 entriesC6 = false :=
  ⟨rfl, rfl⟩

theorem playlistLoop_count (dlB : Str → Bool) (entries : List Entry) (succ : Nat) :
    playlistLoop (fun u => .ok (dlB u)) entries succ =
      .ok (succ + entries.countP (fun e => ((entryUrl e).map dlB).getD false)) := by
  induction entries generalizing succ with
  | nil => simp [playlistLoop]
  | cons e rest ih =>
      cases h : entryUrl e with
      | none => simp [playlistLoop, h, ih, List.countP_cons]
      | some u =>
          cases hb : dlB u
          · simp [playlistLoop, h, hb, ih, List.countP_cons]
          · simp [playlistLoop, h, hb, ih, List.countP_cons]
            omega

theorem countP_pos_eq_any {α : Type} (p : α → Bool) (l : List α) :
    decide (0 < l.countP p) = l.any p := by
  induction l with
  | nil => simp
  | cons a t ih =>
      cases h : p a <;> simp [List.countP_cons, h, ← ih]

/-- C6 (amended): provided every entry's download returns normally (no
exception escapes `download_youtube_audio`), the playlist download returns
`true` iff at least one resolvable entry's download succeeded — some
failures do not make the run a total failure, and no successes make it
`false`.  Without that proviso the claim fails: an exception escaping one
entry's download makes the whole playlist return `false` regardless of
earlier successes. -/
theorem c6_playlist_success_iff_any (dlB : Str → Bool) (entries : List Entry) :
    download_youtube_playlist (fun u => .ok (dlB u)) entries =
      entries.any (fun e => ((entryUrl e).map dlB).getD false) := by
  unfold download_youtube_playlist
  rw [playlistLoop_count]
  simpa using countP_pos_eq_any (fun e => ((entryUrl e).map dlB).getD false) entries

/-- Python `s.split(sep, 1)`, restricted to the information lines 281–289
use: `some (left, right)` when the (nonempty) separator occurs in `s`,
splitting at its first occurrence, and `none` when it does not. -/
def splitFirst (sep : Str) : Str → Option (Str × Str)
  | [] => none
  | c :: t =>
    if startsB sep (c :: t) then some ([], (c :: t).drop sep.length)
    else
      match splitFirst sep t with
      | some (l, r) => some (c :: l, r)
      | none => none

/-- Python `s.strip()`: drop leading and trailing whitespace. -/
def stripWs (s : Str) : Str :=
  ((s.dropWhile isWs).reverse.dropWhile isWs).reverse

/-- The metadata dictionary built in lines 295–300 of `main.py`. -/
structure InferredMeta where
  title : Str
  artist : Str
  album : Str
  genre : Str

/-- Lines 277–300 of `main.py` (`add_metadata_to_existing_files`, per-file
logic): infer metadata from a file's extension-stripped base name and its
immediate parent folder name.  `parts = name.split(" - ", 1)`: on a split
the left part stripped is the artist and the right part stripped is the
title; otherwise the stripped base name is the title and the folder is the
artist; the album is always the folder and the genre the constant
"Music". -/
def inferFileMetadata (baseName folder : Str) : InferredMeta :=
  match splitFirst sepStr baseName with
  | some (l, r) =>
      { title := stripWs r, artist := stripWs l
      , album := folder, genre := ofStr "Music" }
  | none =>
      { title := stripWs baseName, artist := folder
      , album := folder, genre := ofStr "Music" }

/-- C7 counterexample: for the separator-free base name " Track07 " in
folder "MyMix" the code strips surrounding whitespace, so the inferred title
is "Track07", not the whole base name " Track07 " as the claim states. -/
theorem c7_title_stripped_counterexample :
    splitFirst sepStr (ofStr " Track07 ") = none ∧
    (inferFileMetadata (ofStr " Track07 ") (ofStr "MyMix")).title = ofStr "Track07" ∧
    (inferFileMetadata (ofStr " Track07 ") (ofStr "MyMix")).title ≠ ofStr " Track07 " := by
  refine ⟨by decide, by decide, by decide⟩

/-- C7 (amended): if the extension-stripped base name contains `" - "`, it
is split at the first occurrence and the left part stripped of surrounding
whitespace is the artist while the right part stripped is the title; with no
separator, the base name stripped of surrounding whitespace is the title and
the immediate parent folder name is the artist; in all cases the album is
the immediate parent folder name and the genre is the constant "Music". -/
theorem c7_infer_metadata_cases (baseName folder : Str) :
    (∀ l r, splitFirst sepStr baseName = some (l, r) →
      inferFileMetadata baseName folder =
        { title := stripWs r, artist := stripWs l
        , album := folder, genre := ofStr "Music" }) ∧
    (splitFirst sepStr baseName = none →
      inferFileMetadata baseName folder =
        { title := stripWs baseName, artist := folder
        , album := folder, genre := ofStr "Music" }) ∧
    (inferFileMetadata baseName folder).album = folder ∧
    (inferFileMetadata baseName folder).genre = ofStr "Music" := by
  refine ⟨?_, ?_, ?_, ?_⟩
  · intro l r h
    simp [inferFileMetadata, h]
  · intro h
    simp [inferFileMetadata, h]
  · rcases h : splitFirst sepStr baseName with _ | ⟨l, r⟩ <;>
      simp [inferFileMetadata, h]
  · rcases h : splitFirst sepStr baseName with _ | ⟨l, r⟩ <;>
      simp [inferFileMetadata, h]

/-- Witness for C7: "The Weeknd - Blinding Lights" in folder "After Hours"
infers artist "The Weeknd", title "Blinding Lights", album "After Hours". -/
theorem c7_witness :
    inferFileMetadata (ofStr "The Weeknd - Blinding Lights") (ofStr "After Hours") =
      { title := ofStr "Blinding Lights", artist := ofStr "The Weeknd"
      , album := ofStr "After Hours", genre := ofStr "Music" } := by
  rw [(c7_infer_metadata_cases (ofStr "The Weeknd - Blinding Lights")
    (ofStr "After Hours")).1 (ofStr "The Weeknd") (ofStr "Blinding Lights")
    (by decide)]
  rfl

/-- The ID3 tag container, as a map from frame id to frame payload. -/
def Tags : Type := Str → Option Str

/-- Store one frame in the container (`tags[key] = Frame(...)`). -/
def setTag (t : Tags) (k v : Str) : Tags :=
  fun k' => if k' = k then some v else t k'

/-- The writer's input dictionary (lines 33–52): `none` models an absent
key; the Python presence test `key in metadata and metadata[key]` is
`fieldSet`. -/
structure MetaDict where
  title : Option Str
  artist : Option Str
  album : Option Str
  year : Option Str
  genre : Option Str
  comment : Option Str
  thumbnail_url : Option Str

/-- Python `key in metadata and metadata[key]`: key present with a truthy
(non-empty) value. -/
def fieldSet : Option Str → Bool
  | none => false
  | some v => !v.isEmpty

def keyTIT2 : Str := ofStr "TIT2"

def keyTPE1 : Str := ofStr "TPE1"

def keyTALB : Str := ofStr "TALB"

def keyTDRC : Str := ofStr "TDRC"

def keyTCON : Str := ofStr "TCON"

def keyCOMM : Str := ofStr "COMM"

def keyAPIC : Str := ofStr "APIC"

/-- Lines 25–70 of `main.py` (`set_mp3_metadata`), as the transformation it
applies to the loaded tag container: each field present and non-empty stores
one frame under its key, in program order; the cover image is stored under
APIC only when `thumbnail_url` is set and the HTTP fetch succeeded
(`fetched = some bytes`, modelling a status-200 response body); every other
frame of the container is untouched. -/
def set_mp3_metadata (existing : Tags) (m : MetaDict) (fetched : Option Str) :
    Tags :=
  let t1 := if fieldSet m.title then setTag existing keyTIT2 (m.title.getD []) else existing
  let t2 := if fieldSet m.artist then setTag t1 keyTPE1 (m.artist.getD []) else t1
  let t3 := if fieldSet m.album then setTag t2 keyTALB (m.album.getD []) else t2
  let t4 := if fieldSet m.year then setTag t3 keyTDRC (m.year.getD []) else t3
  let t5 := if fieldSet m.genre then setTag t4 keyTCON (m.genre.getD []) else t4
  let t6 := if fieldSet m.comment then setTag t5 keyCOMM (m.comment.getD []) else t5
  if fieldSet m.thumbnail_url && fetched.isSome then
    setTag t6 keyAPIC (fetched.getD [])
  else t6

theorem tag_step_ne (c : Prop) [Decidable c] (t : Tags) (k v k' : Str)
    (h : ¬ k' = k) : (if c then setTag t k v else t) k' = t k' := by
  by_cases hc : c <;> simp [setTag, h, hc]

/-- C8: `set_mp3_metadata` writes exactly one frame per present-and-non-empty
field (title→TIT2, artist→TPE1, album→TALB, year→TDRC, genre→TCON,
comment→COMM), writes nothing for an absent-or-empty field (that frame keeps
its previous value), and leaves every frame outside the written set — in
particular any unrelated tag already on the file — unchanged. -/
theorem c8_write_metadata_frames (existing : Tags) (m : MetaDict)
    (fetched : Option Str) :
    (fieldSet m.title = true →
      set_mp3_metadata existing m fetched keyTIT2 = some (m.title.getD [])) ∧
    (fieldSet m.title = false →
      set_mp3_metadata existing m fetched keyTIT2 = existing keyTIT2) ∧
    (fieldSet m.artist = true →
      set_mp3_metadata existing m fetched keyTPE1 = some (m.artist.getD [])) ∧
    (fieldSet m.artist = false →
      set_mp3_metadata existing m fetched keyTPE1 = existing keyTPE1) ∧
    (fieldSet m.album = true →
      set_mp3_metadata existing m fetched keyTALB = some (m.album.getD [])) ∧
    (fieldSet m.album = false →
      set_mp3_metadata existing m fetched keyTALB = existing keyTALB) ∧
    (fieldSet m.year = true →
      set_mp3_metadata existing m fetched keyTDRC = some (m.year.getD [])) ∧
    (fieldSet m.year = false →
      set_mp3_metadata existing m fetched keyTDRC = existing keyTDRC) ∧
    (fieldSet m.genre = true →
      set_mp3_metadata existing m fetched keyTCON = some (m.genre.getD [])) ∧
    (fieldSet m.genre = false →
      set_mp3_metadata existing m fetched keyTCON = existing keyTCON) ∧
    (fieldSet m.comment = true →
      set_mp3_metadata existing m fetched keyCOMM = some (m.comment.getD [])) ∧
    (fieldSet m.comment = false →
      set_mp3_metadata existing m fetched keyCOMM = existing keyCOMM) ∧
    (∀ k, k ∉ [keyTIT2, keyTPE1, keyTALB, keyTDRC, keyTCON, keyCOMM, keyAPIC] →
      set_mp3_metadata existing m fetched k = existing k) := by
  refine ⟨?_, ?_, ?_, ?_, ?_, ?_, ?_, ?_, ?_, ?_, ?_, ?_, ?_⟩
  · intro h
    simp only [set_mp3_metadata]
    rw [tag_step_ne _ _ _ _ _ (by decide), tag_step_ne _ _ _ _ _ (by decide),
      tag_step_ne _ _ _ _ _ (by decide), tag_step_ne _ _ _ _ _ (by decide),
      tag_step_ne _ _ _ _ _ (by decide), tag_step_ne _ _ _ _ _ (by decide)]
    simp [setTag, h]
  · intro h
    simp only [set_mp3_metadata]
    rw [tag_step_ne _ _ _ _ _ (by decide), tag_step_ne _ _ _ _ _ (by decide),
      tag_step_ne _ _ _ _ _ (by decide), tag_step_ne _ _ _ _ _ (by decide),
      tag_step_ne _ _ _ _ _ (by decide), tag_step_ne _ _ _ _ _ (by decide)]
    simp [setTag, h]
  · intro h
    simp only [set_mp3_metadata]
    rw [tag_step_ne _ _ _ _ _ (by decide), tag_step_ne _ _ _ _ _ (by decide),
      tag_step_ne _ _ _ _ _ (by decide), tag_step_ne _ _ _ _ _ (by decide),
      tag_step_ne _ _ _ _ _ (by decide)]
    simp [setTag, h]
  · intro h
    simp only [set_mp3_metadata]
    rw [tag_step_ne _ _ _ _ _ (by decide), tag_step_ne _ _ _ _ _ (by decide),
      tag_step_ne _ _ _ _ _ (by decide), tag_step_ne _ _ _ _ _ (by decide),
      tag_step_ne _ _ _ _ _ (by decide)]
    simp only [h, Bool.false_eq_true, if_false]
    rw [tag_step_ne _ _ _ _ _ (by decide)]
  · intro h
    simp only [set_mp3_metadata]
    rw [tag_step_ne _ _ _ _ _ (by decide), tag_step_ne _ _ _ _ _ (by decide),
      tag_step_ne _ _ _ _ _ (by decide), tag_step_ne _ _ _ _ _ (by decide)]
    simp [setTag, h]
  · intro h
    simp only [set_mp3_metadata]
    rw [tag_step_ne _ _ _ _ _ (by decide), tag_step_ne _ _ _ _ _ (by decide),
      tag_step_ne _ _ _ _ _ (by decide), tag_step_ne _ _ _ _ _ (by decide)]
    simp only [h, Bool.false_eq_true, if_false]
    rw [tag_step_ne _ _ _ _ _ (by decide), tag_step_ne _ _ _ _ _ (by decide)]
  · intro h
    simp only [set_mp3_metadata]
    rw [tag_step_ne _ _ _ _ _ (by decide), tag_step_ne _ _ _ _ _ (by decide),
      tag_step_ne _ _ _ _ _ (by decide)]
    simp [setTag, h]
  · intro h
    simp only [set_mp3_metadata]
    rw [tag_step_ne _ _ _ _ _ (by decide), tag_step_ne _ _ _ _ _ (by decide),
      tag_step_ne _ _ _ _ _ (by decide)]
    simp only [h, Bool.false_eq_true, if_false]
    rw [tag_step_ne _ _ _ _ _ (by decide), tag_step_ne _ _ _ _ _ (by decide),
      tag_step_ne _ _ _ _ _ (by decide)]
  · intro h
    simp only [set_mp3_metadata]
    rw [tag_step_ne _ _ _ _ _ (by decide), tag_step_ne _ _ _ _ _ (by decide)]
    simp [setTag, h]
  · intro h
    simp only [set_mp3_metadata]
    rw [tag_step_ne _ _ _ _ _ (by decide), tag_step_ne _ _ _ _ _ (by decide)]
    simp only [h, Bool.false_eq_true, if_false]
    rw [tag_step_ne _ _ _ _ _ (by decide), tag_step_ne _ _ _ _ _ (by decide),
      tag_step_ne _ _ _ _ _ (by decide), tag_step_ne _ _ _ _ _ (by decide)]
  · intro h
    simp only [set_mp3_metadata]
    rw [tag_step_ne _ _ _ _ _ (by decide)]
    simp [setTag, h]
  · intro h
    simp only [set_mp3_metadata]
    rw [tag_step_ne _ _ _ _ _ (by decide)]
    simp only [h, Bool.false_eq_true, if_false]
    rw [tag_step_ne _ _ _ _ _ (by decide), tag_step_ne _ _ _ _ _ (by decide),
      tag_step_ne _ _ _ _ _ (by decide), tag_step_ne _ _ _ _ _ (by decide),
      tag_step_ne _ _ _ _ _ (by decide)]
  · intro k hk
    simp only [List.mem_cons, List.not_mem_nil, or_false, not_or] at hk
    obtain ⟨h1, h2, h3, h4, h5, h6, h7⟩ := hk
    simp only [set_mp3_metadata]
    rw [tag_step_ne _ _ _ _ _ h7, tag_step_ne _ _ _ _ _ h6,
      tag_step_ne _ _ _ _ _ h5, tag_step_ne _ _ _ _ _ h4,
      tag_step_ne _ _ _ _ _ h3, tag_step_ne _ _ _ _ _ h2,
      tag_step_ne _ _ _ _ _ h1]

/-- A concrete container carrying one unrelated frame. -/
def tagsC8 : Tags := fun k => if k = ofStr "TXXX" then some (ofStr "keep") else none

/-- A concrete writer input: title present, year present, album present but
empty, everything else absent. -/
def metaC8 : MetaDict :=
  { title := some (ofStr "Song")
  , artist := none
  , album := some []
  , year := some (ofStr "1999")
  , genre := none
  , comment := none
  , thumbnail_url := none }

/-- Witness for C8: the present title is written, the empty album leaves the
TALB frame unchanged, and the unrelated TXXX frame keeps its value. -/
theorem c8_witness :
    set_mp3_metadata tagsC8 metaC8 none keyTIT2 = some (ofStr "Song") ∧
    set_mp3_metadata tagsC8 metaC8 none keyTALB = tagsC8 keyTALB ∧
    set_mp3_metadata tagsC8 metaC8 none (ofStr "TXXX") = some (ofStr "keep") := by
  have h := c8_write_metadata_frames tagsC8 metaC8 none
  refine ⟨h.1 (by decide), h.2.2.2.2.2.1 (by decide), ?_⟩
  have h' := h.2.2.2.2.2.2.2.2.2.2.2.2 (ofStr "TXXX") (by decide)
  rw [h']
  rfl

/-- Characters kept unchanged by the restricted sanitizer model: ASCII
letters, digits, dot and hyphen. -/
def isSafeChar (c : Char) : Bool := c.isAlphanum || c == '.' || c == '-'

/-- One character through the restricted sanitizer: safe characters pass,
everything else (spaces included) becomes an underscore. -/
def toSafe (c : Char) : Char := if isSafeChar c then c else '_'

/-- Collapse every run of underscores to a single underscore. -/
def collapseUnders : Str → Str
  | [] => []
  | c :: t =>
    match collapseUnders t with
    | [] => [c]
    | d :: r => if c == '_' && d == '_' then d :: r else c :: d :: r

/-- Drop leading underscores. -/
def dropLeadingUnders (s : Str) : Str := s.dropWhile (fun c => c == '_')

/-- Drop trailing underscores. -/
def dropTrailingUnders : Str → Str
  | [] => []
  | c :: t =>
    match dropTrailingUnders t with
    | [] => if c == '_' then [] else [c]
    | d :: r => c :: d :: r

/-- Modelled from the spec: `sanitize_filename(s, restricted=True)`, the
extraction library's restricted-character-set filename sanitizer called at
lines 142 and 211 of `main.py`; the library's own code is not part of this
repository.  Following the spec's words — "a filesystem-safe sanitizer
(restricted character set)" whose substitutions produce underscores — the
model maps every character outside the restricted set to an underscore,
collapses runs of underscores and strips them from both ends. -/
def sanitize_filename_restricted (s : Str) : Str :=
  dropTrailingUnders (dropLeadingUnders (collapseUnders (s.map toSafe)))

/-- Lines 143 and 212: `s.replace('_', ' ')` — every underscore becomes a
space. -/
def replaceUnders (s : Str) : Str :=
  s.map (fun c => if c == '_' then ' ' else c)

/-- Lines 141–144: the full sanitization step applied to a base name. -/
def sanitizeStep (s : Str) : Str :=
  replaceUnders (sanitize_filename_restricted s)

/-- Lines 134–145: the derived output file base name — the part of the
output file name before the ".mp3" extension. -/
def derivedFileBase (title artist : Str) : Str :=
  sanitizeStep (derive_base_name title artist)

/-- Two adjacent underscores occur somewhere in the string. -/
def hasDoubleUnder : Str → Bool
  | a :: b :: t => (a == '_' && b == '_') || hasDoubleUnder (b :: t)
  | _ => false

theorem collapseUnders_cons_eq (c : Char) (t : Str) :
    collapseUnders (c :: t) =
      match collapseUnders t with
      | [] => [c]
      | d :: r => if c == '_' && d == '_' then d :: r else c :: d :: r := rfl

theorem dropTrailingUnders_cons_eq (c : Char) (t : Str) :
    dropTrailingUnders (c :: t) =
      match dropTrailingUnders t with
      | [] => if c == '_' then [] else [c]
      | d :: r => c :: d :: r := rfl

theorem hasDoubleUnder_of_cons {a : Char} {l : Str}
    (h : hasDoubleUnder (a :: l) = false) : hasDoubleUnder l = false := by
  cases l with
  | nil => rfl
  | cons b t =>
      have h' : ((a == '_' && b == '_') || hasDoubleUnder (b :: t)) = false := h
      exact (Bool.or_eq_false_iff.mp h').2

theorem collapseUnders_noDouble (s : Str) :
    hasDoubleUnder (collapseUnders s) = false := by
  induction s with
  | nil => rfl
  | cons c t ih =>
      rw [collapseUnders_cons_eq]
      cases h : collapseUnders t with
      | nil => rfl
      | cons d r =>
          rw [h] at ih
          show hasDoubleUnder
            (if c == '_' && d == '_' then d :: r else c :: d :: r) = false
          cases hc : (c == '_' && d == '_') with
          | true => simpa using ih
          | false =>
              rw [if_neg (by simp)]
              have h2 : ((c == '_' && d == '_') || hasDoubleUnder (d :: r)) = false := by
                rw [hc, ih]
                rfl
              exact h2

theorem collapseUnders_eq_self {s : Str} (h : hasDoubleUnder s = false) :
    collapseUnders s = s := by
  induction s with
  | nil => rfl
  | cons c t ih =>
      have ih' := ih (hasDoubleUnder_of_cons h)
      rw [collapseUnders_cons_eq, ih']
      cases t with
      | nil => rfl
      | cons d r =>
          have hc : (c == '_' && d == '_') = false :=
            (Bool.or_eq_false_iff.mp
              (h : ((c == '_' && d == '_') || hasDoubleUnder (d :: r)) = false)).1
          simp [hc]

theorem mem_collapseUnders {a : Char} : ∀ {s : Str}, a ∈ collapseUnders s → a ∈ s
  | [], h => by simp [collapseUnders] at h
  | c :: t, h => by
      rw [collapseUnders_cons_eq] at h
      cases hm : collapseUnders t with
      | nil =>
          rw [hm] at h
          have h' : a ∈ [c] := h
          simp only [List.mem_singleton] at h'
          simp [h']
      | cons d r =>
          rw [hm] at h
          have h' : a ∈ (if c == '_' && d == '_' then d :: r else c :: d :: r) := h
          cases hc : (c == '_' && d == '_') with
          | true =>
              rw [if_pos hc] at h'
              have hmem : a ∈ collapseUnders t := by
                rw [hm]
                exact h'
              exact List.mem_cons_of_mem c (mem_collapseUnders hmem)
          | false =>
              rw [if_neg (by simp [hc])] at h'
              simp only [List.mem_cons] at h'
              rcases h' with h' | h'
              · simp [h']
              · have hmem : a ∈ collapseUnders t := by
                  rw [hm]
                  simpa using h'
                exact List.mem_cons_of_mem c (mem_collapseUnders hmem)

theorem mem_dropTrailingUnders {a : Char} :
    ∀ {s : Str}, a ∈ dropTrailingUnders s → a ∈ s
  | [], h => by simp [dropTrailingUnders] at h
  | c :: t, h => by
      rw [dropTrailingUnders_cons_eq] at h
      cases hm : dropTrailingUnders t with
      | nil =>
          rw [hm] at h
          have h' : a ∈ (if c == '_' then [] else [c]) := h
          cases hc : (c == '_') with
          | true =>
              rw [if_pos hc] at h'
              simp at h'
          | false =>
              rw [if_neg (by simp [hc])] at h'
              simp only [List.mem_singleton] at h'
              simp [h']
      | cons d r =>
          rw [hm] at h
          have h' : a ∈ c :: d :: r := h
          simp only [List.mem_cons] at h'
          rcases h' with h' | h'
          · simp [h']
          · have hmem : a ∈ dropTrailingUnders t := by
              rw [hm]
              simpa using h'
            exact List.mem_cons_of_mem c (mem_dropTrailingUnders hmem)

theorem dropTrailingUnders_head (c : Char) (t : Str) :
    dropTrailingUnders (c :: t) = [] ∨
      ∃ r, dropTrailingUnders (c :: t) = c :: r := by
  rw [dropTrailingUnders_cons_eq]
  cases h : dropTrailingUnders t with
  | nil =>
      cases hc : (c == '_') with
      | true =>
          left
          simp [hc]
      | false =>
          right
          exact ⟨[], by simp [hc]⟩
  | cons d r =>
      right
      exact ⟨d :: r, rfl⟩

theorem dropTrailingUnders_noDouble {s : Str} (h : hasDoubleUnder s = false) :
    hasDoubleUnder (dropTrailingUnders s) = false := by
  induction s with
  | nil => rfl
  | cons c t ih =>
      have ih' := ih (hasDoubleUnder_of_cons h)
      rw [dropTrailingUnders_cons_eq]
      cases hm : dropTrailingUnders t with
      | nil =>
          cases hc : (c == '_') with
          | true => simp [hc, hasDoubleUnder]
          | false => simp [hc, hasDoubleUnder]
      | cons d r =>
          rw [hm] at ih'
          show hasDoubleUnder (c :: d :: r) = false
          cases t with
          | nil => simp [dropTrailingUnders] at hm
          | cons e t2 =>
              rcases dropTrailingUnders_head e t2 with h0 | ⟨r', hr⟩
              · rw [h0] at hm
                exact absurd hm (by simp)
              · rw [hr] at hm
                have hde : d = e := by
                  injection hm with h1 h2
                  exact h1.symm
                have hpair : (c == '_' && e == '_') = false :=
                  (Bool.or_eq_false_iff.mp
                    (h : ((c == '_' && e == '_') ||
                      hasDoubleUnder (e :: t2)) = false)).1
                rw [hde] at ih'
                have hgoal : ((c == '_' && e == '_') ||
                    hasDoubleUnder (e :: r)) = false := by
                  rw [hpair, ih']
                  rfl
                rw [hde]
                exact hgoal

theorem dropTrailingUnders_getLast {s : Str} :
    (dropTrailingUnders s).getLast? ≠ some '_' := by
  induction s with
  | nil => simp [dropTrailingUnders]
  | cons c t ih =>
      rw [dropTrailingUnders_cons_eq]
      cases hm : dropTrailingUnders t with
      | nil =>
          cases hc : (c == '_') with
          | true => simp [hc]
          | false =>
              rw [if_neg (by simp [hc])]
              intro hx
              simp only [List.getLast?_singleton, Option.some.injEq] at hx
              rw [hx] at hc
              simp at hc
      | cons d r =>
          rw [hm] at ih
          show (c :: d :: r).getLast? ≠ some '_'
          rw [List.getLast?_cons_cons]
          exact ih

theorem dropTrailingUnders_eq_self {s : Str} (h : s.getLast? ≠ some '_') :
    dropTrailingUnders s = s := by
  induction s with
  | nil => rfl
  | cons c t ih =>
      cases t with
      | nil =>
          have hc : (c == '_') = false := by
            cases hcc : (c == '_') with
            | false => rfl
            | true =>
                have hc' : c = '_' := by simpa using hcc
                rw [hc'] at h
                simp at h
          simp [dropTrailingUnders, hc]
      | cons e t2 =>
          have ht : (e :: t2).getLast? ≠ some '_' := by
            rwa [List.getLast?_cons_cons] at h
          have ih' := ih ht
          rw [dropTrailingUnders_cons_eq, ih']

theorem dropLeadingUnders_head {s : Str} {c : Char}
    (h : (dropLeadingUnders s).head? = some c) : (c == '_') = false := by
  induction s with
  | nil => simp [dropLeadingUnders] at h
  | cons a t ih =>
      rw [dropLeadingUnders, List.dropWhile_cons] at h
      by_cases ha : (a == '_') = true
      · rw [if_pos ha] at h
        exact ih (show (dropLeadingUnders t).head? = some c from h)
      · rw [if_neg ha] at h
        have hac : a = c := by simpa using h
        rw [← hac]
        cases haa : (a == '_') with
        | false => rfl
        | true => exact absurd haa ha

theorem dropLeadingUnders_noDouble {s : Str} (h : hasDoubleUnder s = false) :
    hasDoubleUnder (dropLeadingUnders s) = false := by
  induction s with
  | nil => exact h
  | cons a t ih =>
      rw [dropLeadingUnders, List.dropWhile_cons]
      by_cases ha : (a == '_') = true
      · rw [if_pos ha]
        exact ih (hasDoubleUnder_of_cons h)
      · rw [if_neg ha]
        exact h

theorem dropLeadingUnders_eq_self {s : Str} (h : s.head? ≠ some '_') :
    dropLeadingUnders s = s := by
  cases s with
  | nil => rfl
  | cons a t =>
      have ha : ¬ (a == '_') = true := by
        intro haa
        have ha' : a = '_' := by simpa using haa
        rw [ha'] at h
        simp at h
      rw [dropLeadingUnders, List.dropWhile_cons, if_neg ha]

theorem dropTrailingUnders_head_eq {s : Str} :
    (dropTrailingUnders s).head? = none ∨
      (dropTrailingUnders s).head? = s.head? := by
  cases s with
  | nil => left; rfl
  | cons c t =>
      rcases dropTrailingUnders_head c t with h | ⟨r, hr⟩
      · left
        rw [h]
        rfl
      · right
        rw [hr]
        rfl

theorem sanitize_chars {s : Str} {a : Char}
    (h : a ∈ sanitize_filename_restricted s) : isSafeChar a = true ∨ a = '_' := by
  have h1 : a ∈ dropLeadingUnders (collapseUnders (s.map toSafe)) :=
    mem_dropTrailingUnders h
  have h2 : a ∈ collapseUnders (s.map toSafe) :=
    (List.dropWhile_sublist _).subset h1
  have h3 : a ∈ s.map toSafe := mem_collapseUnders h2
  obtain ⟨b, hb, hba⟩ := List.mem_map.mp h3
  simp only [toSafe] at hba
  by_cases hs : isSafeChar b = true
  · left
    rw [if_pos hs] at hba
    rw [← hba]
    exact hs
  · right
    rw [if_neg hs] at hba
    exact hba.symm

theorem sanitize_noDouble (s : Str) :
    hasDoubleUnder (sanitize_filename_restricted s) = false :=
  dropTrailingUnders_noDouble (dropLeadingUnders_noDouble (collapseUnders_noDouble _))

theorem sanitize_head (s : Str) :
    (sanitize_filename_restricted s).head? ≠ some '_' := by
  intro hx
  rcases dropTrailingUnders_head_eq
      (s := dropLeadingUnders (collapseUnders (s.map toSafe))) with h | h
  · rw [show sanitize_filename_restricted s =
      dropTrailingUnders (dropLeadingUnders (collapseUnders (s.map toSafe)))
      from rfl, h] at hx
    exact Option.noConfusion hx
  · rw [show sanitize_filename_restricted s =
      dropTrailingUnders (dropLeadingUnders (collapseUnders (s.map toSafe)))
      from rfl, h] at hx
    have hcontr := dropLeadingUnders_head hx
    simp at hcontr

theorem sanitize_last (s : Str) :
    (sanitize_filename_restricted s).getLast? ≠ some '_' :=
  dropTrailingUnders_getLast

theorem map_eq_self_of_mem {f : Char → Char} {l : Str}
    (h : ∀ c ∈ l, f c = c) : l.map f = l := by
  induction l with
  | nil => rfl
  | cons a t ih =>
      rw [List.map_cons, h a (by simp), ih (fun c hc => h c (by simp [hc]))]

theorem toSafe_replace {a : Char} (h : isSafeChar a = true ∨ a = '_') :
    toSafe (if a == '_' then ' ' else a) = a := by
  rcases h with h | h
  · have hne : ¬ (a == '_') = true := by
      intro hc
      have ha : a = '_' := by simpa using hc
      rw [ha] at h
      exact absurd h (by decide)
    rw [if_neg hne]
    simp only [toSafe]
    rw [if_pos h]
  · rw [h]
    decide

/-- C9: the filename sanitization step — the restricted-character-set
sanitizer followed by replacing underscores with spaces — is idempotent:
applying it twice yields the same string as applying it once. -/
theorem c9_sanitize_step_idempotent (s : Str) :
    sanitizeStep (sanitizeStep s) = sanitizeStep s := by
  have hchars : ∀ a ∈ sanitize_filename_restricted s,
      isSafeChar a = true ∨ a = '_' :=
    fun a ha => sanitize_chars ha
  have hmap : (replaceUnders (sanitize_filename_restricted s)).map toSafe =
      sanitize_filename_restricted s := by
    simp only [replaceUnders, List.map_map]
    exact map_eq_self_of_mem (fun c hc => toSafe_replace (hchars c hc))
  show replaceUnders (dropTrailingUnders (dropLeadingUnders (collapseUnders
      ((replaceUnders (sanitize_filename_restricted s)).map toSafe)))) =
    sanitizeStep s
  rw [hmap, collapseUnders_eq_self (sanitize_noDouble s),
    dropLeadingUnders_eq_self (sanitize_head s),
    dropTrailingUnders_eq_self (sanitize_last s)]
  rfl

/-- C10: the derived output file base name (the part before the ".mp3"
extension) never contains an underscore: `replace('_', ' ')` replaces every
underscore in the sanitized base name, including underscores that were
present verbatim in the original title or artist. -/
theorem c10_no_underscore_in_base (title artist : Str) :
    '_' ∉ derivedFileBase title artist := by
  intro h
  simp only [derivedFileBase, sanitizeStep, replaceUnders] at h
  obtain ⟨c, hc, he⟩ := List.mem_map.mp h
  by_cases h' : (c == '_') = true
  · rw [if_pos h'] at he
    exact absurd he (by decide)
  · rw [if_neg h'] at he
    rw [he] at h'
    simp at h'

/-- Witness for C10: concrete title and artist both containing verbatim
underscores still derive an underscore-free base name. -/
theorem c10_witness :
    '_' ∉ derivedFileBase (ofStr "so_ng ti_tle") (ofStr "art_ist") :=
  c10_no_underscore_in_base (ofStr "so_ng ti_tle") (ofStr "art_ist")

end YtMp3
